import Mathlib

/-!
Verification development for the client-side assessment flow of the
interview_ai frontend.  The definitions below are a shallow embedding of the
TypeScript source: the question flattener and report builder of `TestPage`
(`App.tsx`), the answer store built by `setAnswers`, the countdown-timer
effect, and the error-message paths of the remote-gateway calls.  JavaScript
numbers are modelled as exact rationals, `Math.round` as `fun q => Int.floor
(q + 1/2)`, and JavaScript truthiness of strings (`!!s`, `s || t`) is made
explicit.
-/

namespace InterviewAI

/-- The three assessment domains (`"aptitude" | "reasoning" | "coding"`). -/
inductive Domain where
  | aptitude
  | reasoning
  | coding
deriving DecidableEq, Repr

/-- The fields of a question object that the client reads.  The backend sends
`any`-shaped data, so every field may be absent; absent fields are `none`. -/
structure Question where
  question : Option String := none
  options : List String := []
  correct_answer : Option String := none
  level : Option String := none
  difficulty : Option String := none
deriving DecidableEq, Repr

/-- `QuestionsGroup = { final_level: string; questions: any[] }`. -/
structure QuestionsGroup where
  final_level : String := ""
  questions : List Question := []
deriving DecidableEq, Repr

/-- `QuestionsPayload`: one group per domain. -/
structure QuestionsPayload where
  aptitude : QuestionsGroup
  reasoning : QuestionsGroup
  coding : QuestionsGroup
deriving DecidableEq, Repr

/-- `FlatQ = { id: string; domain: ...; q: any }`. -/
structure FlatQ where
  id : String
  domain : Domain
  q : Question
deriving DecidableEq, Repr

/-- The answer store: a JavaScript object mapping question ids to the selected
option string, modelled as an association list in key-insertion order. -/
abbrev AnswerMap := List (String × String)

/-- JavaScript truthiness of a string: `!!s` is `false` exactly for `""`. -/
def truthyStr (s : String) : Bool := !(s == "")

/-- JavaScript truthiness of `string | undefined`. -/
def truthyOpt : Option String → Bool
  | none => false
  | some s => truthyStr s

/-- `a || b` on optional strings: the first operand unless it is falsy
(`undefined` or `""`). -/
def firstTruthy (a b : Option String) : Option String :=
  if truthyOpt a then a else if truthyOpt b then b else none

/-- `o || ""`: the string if truthy, `""` otherwise. -/
def strOrEmpty (o : Option String) : String :=
  if truthyOpt o then o.getD "" else ""

/-- One element of `ReportPayload.answers`. -/
structure PerAnswer where
  index : Nat
  domain : Domain
  difficulty : Option String
  question : String
  selected : Option String
  correct : String
  isCorrect : Bool
deriving DecidableEq, Repr

/-- The per-question result built by `buildReport` for `flat[idx]`:
`correct = f.q?.correct_answer ?? ""` and
`isCorrect = !!chosen && !!correct && chosen === correct`. -/
def scoreOne (answers : AnswerMap) (idx : Nat) (f : FlatQ) : PerAnswer :=
  let chosen := answers.lookup f.id
  let correct := f.q.correct_answer.getD ""
  { index := idx + 1
    domain := f.domain
    difficulty := firstTruthy f.q.level f.q.difficulty
    question := strOrEmpty f.q.question
    selected := chosen
    correct := correct
    isCorrect := truthyOpt chosen && truthyStr correct && (chosen == some correct) }

/-- `flat.map((f, idx) => ...)`: score every flat question in order, carrying
the running index. -/
def scoreFrom (answers : AnswerMap) : Nat → List FlatQ → List PerAnswer
  | _, [] => []
  | idx, f :: fs => scoreOne answers idx f :: scoreFrom answers (idx + 1) fs

/-- `ReportPayload.totals`. -/
structure Totals where
  overall : Nat
  aptitude : Nat
  reasoning : Nat
  coding : Nat
  totalQuestions : Nat
deriving DecidableEq, Repr

/-- `acc[r.domain] += 1`. -/
def bumpDomain (t : Totals) : Domain → Totals
  | .aptitude => { t with aptitude := t.aptitude + 1 }
  | .reasoning => { t with reasoning := t.reasoning + 1 }
  | .coding => { t with coding := t.coding + 1 }

/-- The body of the `per.reduce` accumulating the totals: on a correct answer
increment `overall` and the answer's domain bucket. -/
def stepTotals (acc : Totals) (r : PerAnswer) : Totals :=
  if r.isCorrect then bumpDomain { acc with overall := acc.overall + 1 } r.domain
  else acc

/-- `n || 1` used as a divisor guard. -/
def jsDenom (n : Nat) : ℚ := if n = 0 then 1 else (n : ℚ)

/-- `slice.reduce((a, b) => a + b, 0) / (slice.length || 1)`. -/
def meanJS (l : List ℚ) : ℚ := l.foldl (· + ·) 0 / jsDenom l.length

/-- The `for (let i = 0; i < seq.length; i += 5)` loop pushing the mean of
each 5-element slice (the last slice may be shorter). -/
def windowMeans : List ℚ → List ℚ
  | [] => []
  | a :: b :: c :: d :: e :: rest => meanJS [a, b, c, d, e] :: windowMeans rest
  | l => [meanJS l]

/-- The variance of the window means as the code computes it: `reduce`-based
mean and squared-deviation sums, each divided by `chunks.length || 1`. -/
def windowVariance (seq : List ℚ) : ℚ :=
  let chunks := windowMeans seq
  let mean := chunks.foldl (· + ·) 0 / jsDenom chunks.length
  (chunks.foldl (fun a b => a + (b - mean) * (b - mean)) 0) / jsDenom chunks.length

/-- `variance < 0.05 ? "Highly consistent" : variance < 0.12 ?
"Moderately consistent" : "Inconsistent"`. -/
def consistencyOf (seq : List ℚ) : String :=
  if windowVariance seq < 1 / 20 then "Highly consistent"
  else if windowVariance seq < 3 / 25 then "Moderately consistent"
  else "Inconsistent"

/-- `ReportPayload.behavior`. -/
structure Behavior where
  accuracy : ℤ
  consistency : String
deriving DecidableEq, Repr

/-- The parsed-profile fields carried through navigation state. -/
structure Parsed where
  name : String := ""
  email : String := ""
  phone : String := ""
  experience : List String := []
  tenth_percentage : String := ""
  twelfth_percentage : String := ""
  degree_percentage_or_cgpa : String := ""
deriving DecidableEq, Repr

/-- `ReportPayload`. -/
structure Report where
  answers : List PerAnswer
  totals : Totals
  behavior : Behavior
  profile : Option Parsed
deriving Repr

/-- `Math.round` on a nonnegative rational: floor of the value plus one half. -/
def jsRound (q : ℚ) : ℤ := Int.floor (q + 1 / 2)

/-- `buildReport` from `TestPage`: per-question results, reduced totals,
windowed-variance consistency label, and the guarded accuracy percentage. -/
def buildReport (flat : List FlatQ) (answers : AnswerMap) (parsed : Option Parsed) :
    Report :=
  let per := scoreFrom answers 0 flat
  let totals := per.foldl stepTotals
    { overall := 0, aptitude := 0, reasoning := 0, coding := 0, totalQuestions := per.length }
  let correctSeq := per.map (fun p => if p.isCorrect then (1 : ℚ) else 0)
  { answers := per
    totals := totals
    behavior :=
      { accuracy :=
          if totals.totalQuestions ≠ 0 then
            jsRound ((totals.overall : ℚ) / (totals.totalQuestions : ℚ) * 100)
          else 0
        consistency := consistencyOf correctSeq }
    profile := parsed }

/-- One `forEach((q, i) => arr.push({ id: base + i + 1, ... }))` pass of
the flattener, with `base` the literal domain offset (0, 10 or 20). -/
def pushFrom (base : Nat) (d : Domain) : Nat → List Question → List FlatQ
  | _, [] => []
  | i, q :: qs => ⟨"q-" ++ toString (base + i + 1), d, q⟩ :: pushFrom base d (i + 1) qs

/-- The `flat` `useMemo` of `TestPage`: aptitude, then reasoning, then coding,
with positional ids at offsets 0 / 10 / 20. -/
def flatten (p : QuestionsPayload) : List FlatQ :=
  pushFrom 0 .aptitude 0 p.aptitude.questions
    ++ pushFrom 10 .reasoning 0 p.reasoning.questions
    ++ pushFrom 20 .coding 0 p.coding.questions

/-- `setAnswers((prev) => ({ ...prev, [id]: value }))`: an existing key keeps
its position and gets the new value, a new key is appended. -/
def record (m : AnswerMap) (id v : String) : AnswerMap :=
  if m.any (fun kv => kv.1 = id) then
    m.map (fun kv => if kv.1 = id then (kv.1, v) else kv)
  else m ++ [(id, v)]

/-- `Object.keys(answers).length`. -/
def countAnswered (m : AnswerMap) : Nat := m.length

/-- The ids stored in the answer map. -/
def answerKeys (m : AnswerMap) : List String := m.map Prod.fst

/-- Replay a sequence of `(id, option)` selections against the empty store. -/
def applyOps (ops : List (String × String)) : AnswerMap :=
  ops.foldl (fun acc op => record acc op.1 op.2) []

/-! ### Timer model

The `TestPage` countdown effect, as a discrete transition system.  The effect
has dependency `[remaining]`, so it re-runs exactly when `remaining` changes:
at `0` it finalizes the report (`setResult(buildReport())`) and installs no
interval; otherwise it installs a 1-second interval whose tick decrements
`remaining` (clamped at 0), which cleans the old interval up and re-runs the
effect. -/

/-- Timer state: seconds left, whether an interval is installed, and how many
times report finalization has been triggered. -/
structure TimerSt where
  remaining : Nat
  intervalActive : Bool
  builds : Nat
deriving DecidableEq, Repr

/-- The effect body: at zero trigger finalization (and install no interval),
otherwise install the interval. -/
def runTimerEffect (s : TimerSt) : TimerSt :=
  if s.remaining = 0 then { s with builds := s.builds + 1, intervalActive := false }
  else { s with intervalActive := true }

/-- One interval tick: `setRemaining((s) => (s > 0 ? s - 1 : 0))`, followed by
the cleanup of the old effect and the re-run of the effect on the changed
value.  Without an installed interval nothing happens. -/
def timerTick (s : TimerSt) : TimerSt :=
  if s.intervalActive then
    runTimerEffect
      { s with
        remaining := if 0 < s.remaining then s.remaining - 1 else 0
        intervalActive := false }
  else s

/-- The state after mounting the test page (`remaining = 30 * 60`) and `k`
elapsed seconds. -/
def timerTrace : Nat → TimerSt
  | 0 => runTimerEffect { remaining := 30 * 60, intervalActive := false, builds := 0 }
  | k + 1 => timerTick (timerTrace k)

/-! ### Remote-gateway error paths -/

/-- `ParsePage.handleParse`: `throw new Error(await res.text())` caught by
`setError(err.message || "Parse failed")`. -/
def handleParseErrorMessage (bodyText : String) : String :=
  if truthyStr bodyText then bodyText else "Parse failed"

/-- `services/resume.ts` `uploadResume`:
`throw new Error(‹Upload failed: › + res.statusText)`. -/
def uploadResumeErrorMessage (statusText : String) : String :=
  "Upload failed: " ++ statusText

/-- `services/report.ts` `generateReport`:
`throw new Error(‹Report generation failed: › + res.statusText)`. -/
def generateReportErrorMessage (statusText : String) : String :=
  "Report generation failed: " ++ statusText

/-! ### Spec-side definitions

These follow the specification's words, to be compared with the definitions
above that were translated from the source. -/

/-- Spec: the arithmetic mean of a list (variance is taken over window
means).  On the empty list `0 / 0 = 0` in `ℚ`. -/
def meanSpec (l : List ℚ) : ℚ := l.sum / l.length

/-- Spec: the variance of a list of values — mean of squared deviations. -/
def varianceSpec (l : List ℚ) : ℚ :=
  ((l.map (fun x => (x - meanSpec l) ^ 2)).sum) / l.length

/-- Spec: partition the ordered correctness sequence into windows of 5 (the
last window may be partial). -/
def windows5 : List ℚ → List (List ℚ)
  | [] => []
  | a :: b :: c :: d :: e :: rest => [a, b, c, d, e] :: windows5 rest
  | l => [l]

/-- Spec: the variance of the per-window means. -/
def specWindowVariance (seq : List ℚ) : ℚ :=
  varianceSpec ((windows5 seq).map meanSpec)

/-- Spec: `accuracy = round(100 * correctCount / total)`, `0` when
`total = 0`. -/
def specAccuracy (c t : Nat) : ℤ :=
  if t = 0 then 0 else Int.floor ((100 * (c : ℚ)) / (t : ℚ) + 1 / 2)

/-! ### Concrete inputs used by witnesses and counterexamples -/

/-- A question whose correct answer is `"A"`. -/
def qA : Question := { correct_answer := some "A" }

/-- A 0/1 correctness sequence of 20 questions with 1, 2, 3 and 4 correct
answers in its four windows of 5: its window-mean variance is exactly
`1/20 = 0.05`. -/
def boundarySeq : List ℚ :=
  [1, 0, 0, 0, 0, 1, 1, 0, 0, 0, 1, 1, 1, 0, 0, 1, 1, 1, 1, 0]

/-- A payload with 20 aptitude questions (and empty other domains). -/
def payload20 : QuestionsPayload :=
  { aptitude := { questions := List.replicate 20 qA }
    reasoning := {}
    coding := {} }

/-- Answers to `payload20` realizing `boundarySeq` as correctness sequence. -/
def answers20 : AnswerMap :=
  [("q-1", "A"), ("q-2", "B"), ("q-3", "B"), ("q-4", "B"), ("q-5", "B"),
   ("q-6", "A"), ("q-7", "A"), ("q-8", "B"), ("q-9", "B"), ("q-10", "B"),
   ("q-11", "A"), ("q-12", "A"), ("q-13", "A"), ("q-14", "B"), ("q-15", "B"),
   ("q-16", "A"), ("q-17", "A"), ("q-18", "A"), ("q-19", "A"), ("q-20", "B")]

/-- A payload of sizes (10, 10, 10). -/
def payload10 : QuestionsPayload :=
  { aptitude := { questions := List.replicate 10 qA }
    reasoning := { questions := List.replicate 10 qA }
    coding := { questions := List.replicate 10 qA } }

/-- A payload of sizes (3, 10, 10): the aptitude domain came up short. -/
def payload3 : QuestionsPayload :=
  { aptitude := { questions := List.replicate 3 qA }
    reasoning := { questions := List.replicate 10 qA }
    coding := { questions := List.replicate 10 qA } }

/-- A question whose recorded `correct_answer` is the empty string. -/
def emptyCorrectQ : Question := { correct_answer := some "" }

/-- A single flat question with empty correct answer. -/
def emptyCorrectFlat : FlatQ := ⟨"q-1", .aptitude, emptyCorrectQ⟩

/-- An answer map that records the empty string for `"q-1"`. -/
def emptyAnswer : AnswerMap := [("q-1", "")]

/-- A question whose correct answer is `"Paris"`. -/
def parisQ : Question := { correct_answer := some "Paris" }

/-- A single flat question asking for `"Paris"`. -/
def parisFlat : FlatQ := ⟨"q-1", .aptitude, parisQ⟩

/-- An answer map selecting `"Paris "` (trailing space) for `"q-1"`. -/
def parisAnswer : AnswerMap := [("q-1", "Paris ")]

/-- A question with no `correct_answer` field at all. -/
def noCorrectQ : Question := {}

/-- A single flat question with no correct answer recorded. -/
def noCorrectFlat : FlatQ := ⟨"q-1", .aptitude, noCorrectQ⟩

/-! ## Lemmas about the question flattener -/

theorem pushFrom_length (base : Nat) (d : Domain) :
    ∀ (n : Nat) (qs : List Question), (pushFrom base d n qs).length = qs.length := by
  intro n qs
  induction qs generalizing n with
  | nil => rfl
  | cons q qs ih => simp [pushFrom, ih]

theorem pushFrom_map_id (base : Nat) (d : Domain) :
    ∀ (n : Nat) (qs : List Question),
      (pushFrom base d n qs).map FlatQ.id =
        (List.range qs.length).map (fun i => "q-" ++ toString (base + (n + i) + 1)) := by
  intro n qs
  induction qs generalizing n with
  | nil => rfl
  | cons q qs ih =>
    simp only [pushFrom, List.map_cons, List.length_cons, List.range_succ_eq_map,
      List.map_map, ih (n + 1)]
    refine congrArg₂ List.cons ?_ ?_
    · have h1 : base + n + 1 = base + (n + 0) + 1 := by omega
      rw [h1]
    · apply List.map_congr_left
      intro i _
      have h2 : base + (n + 1 + i) + 1 = base + (n + Nat.succ i) + 1 := by omega
      simp [Function.comp, h2]

theorem pushFrom_map_domain (base : Nat) (d : Domain) :
    ∀ (n : Nat) (qs : List Question),
      (pushFrom base d n qs).map FlatQ.domain = List.replicate qs.length d := by
  intro n qs
  induction qs generalizing n with
  | nil => rfl
  | cons q qs ih => simp [pushFrom, ih, List.replicate_succ]

theorem pushFrom_map_q (base : Nat) (d : Domain) :
    ∀ (n : Nat) (qs : List Question), (pushFrom base d n qs).map FlatQ.q = qs := by
  intro n qs
  induction qs generalizing n with
  | nil => rfl
  | cons q qs ih => simp [pushFrom, ih]

/-- C4: for input groups of sizes (10, 10, 10) the flattener produces exactly
30 FlatQuestions whose ids are q-1..q-30, in the fixed domain order aptitude,
reasoning, coding, with ids assigned positionally at offsets 0 / 10 / 20. -/
theorem flatten_ten_ten_ten (p : QuestionsPayload)
    (ha : p.aptitude.questions.length = 10)
    (hr : p.reasoning.questions.length = 10)
    (hc : p.coding.questions.length = 10) :
    (flatten p).length = 30 ∧
    (flatten p).map FlatQ.id = (List.range 30).map (fun i => "q-" ++ toString (i + 1)) ∧
    (flatten p).map FlatQ.domain =
      List.replicate 10 Domain.aptitude ++ List.replicate 10 Domain.reasoning ++
        List.replicate 10 Domain.coding ∧
    (flatten p).map FlatQ.q =
      p.aptitude.questions ++ p.reasoning.questions ++ p.coding.questions := by
  refine ⟨?_, ?_, ?_, ?_⟩
  · simp [flatten, pushFrom_length, ha, hr, hc]
  · rw [flatten, List.map_append, List.map_append,
      pushFrom_map_id, pushFrom_map_id, pushFrom_map_id, ha, hr, hc]
    decide
  · rw [flatten, List.map_append, List.map_append,
      pushFrom_map_domain, pushFrom_map_domain, pushFrom_map_domain, ha, hr, hc]
  · rw [flatten, List.map_append, List.map_append,
      pushFrom_map_q, pushFrom_map_q, pushFrom_map_q]

/-- Witness for C4 at a concrete (10, 10, 10) payload. -/
theorem flatten_ten_ten_ten_witness :
    (flatten payload10).length = 30 ∧
    (flatten payload10).map FlatQ.id = (List.range 30).map (fun i => "q-" ++ toString (i + 1)) :=
  ⟨(flatten_ten_ten_ten payload10 (by decide) (by decide) (by decide)).1,
    (flatten_ten_ten_ten payload10 (by decide) (by decide) (by decide)).2.1⟩

/-- Counterexample to C5: flattening groups of sizes (3, 10, 10) produces NO
id collision — the 23 ids q-1..q-3, q-11..q-30 are pairwise distinct (the id
scheme leaves a gap, it does not collide). -/
theorem flatten_three_ten_ten_no_collision :
    (flatten payload3).length = 23 ∧ ((flatten payload3).map FlatQ.id).Nodup := by
  decide

/-- C5 (amended): flattening groups of sizes (3, 10, 10) yields 23
FlatQuestions whose ids are q-1..q-3 followed by q-11..q-20 and q-21..q-30 —
the fixed-offset scheme leaves a gap after the short aptitude block instead of
compacting, and no id appears on two distinct FlatQuestions. -/
theorem flatten_three_ten_ten (p : QuestionsPayload)
    (ha : p.aptitude.questions.length = 3)
    (hr : p.reasoning.questions.length = 10)
    (hc : p.coding.questions.length = 10) :
    (flatten p).length = 23 ∧
    (flatten p).map FlatQ.id =
      ["q-1", "q-2", "q-3"] ++ (List.range 10).map (fun i => "q-" ++ toString (10 + i + 1)) ++
        (List.range 10).map (fun i => "q-" ++ toString (20 + i + 1)) ∧
    ((flatten p).map FlatQ.id).Nodup := by
  have hid : (flatten p).map FlatQ.id =
      ["q-1", "q-2", "q-3"] ++ (List.range 10).map (fun i => "q-" ++ toString (10 + i + 1)) ++
        (List.range 10).map (fun i => "q-" ++ toString (20 + i + 1)) := by
    rw [flatten, List.map_append, List.map_append,
      pushFrom_map_id, pushFrom_map_id, pushFrom_map_id, ha, hr, hc]
    decide
  refine ⟨by simp [flatten, pushFrom_length, ha, hr, hc], hid, ?_⟩
  rw [hid]
  decide

/-- Witness for the amended C5 at a concrete (3, 10, 10) payload. -/
theorem flatten_three_ten_ten_witness :
    (flatten payload3).length = 23 ∧ ((flatten payload3).map FlatQ.id).Nodup :=
  ⟨(flatten_three_ten_ten payload3 (by decide) (by decide) (by decide)).1,
    (flatten_three_ten_ten payload3 (by decide) (by decide) (by decide)).2.2⟩

/-! ## Lemmas about the answer store -/

theorem lookup_cons (a k b : String) (l : List (String × String)) :
    List.lookup a ((k, b) :: l) = if (a == k) = true then some b else List.lookup a l := by
  rcases h : a == k with _ | _ <;> simp [List.lookup, h]

theorem any_key_iff (m : AnswerMap) (id : String) :
    (m.any (fun kv => kv.1 = id)) = true ↔ id ∈ answerKeys m := by
  rw [List.any_eq_true]
  constructor
  · rintro ⟨kv, hm, hk⟩
    rw [answerKeys, List.mem_map]
    exact ⟨kv, hm, by simpa using hk⟩
  · intro h
    rw [answerKeys, List.mem_map] at h
    obtain ⟨kv, hm, hk⟩ := h
    exact ⟨kv, hm, by simpa using hk⟩

theorem record_of_mem {m : AnswerMap} {id : String} (v : String) (h : id ∈ answerKeys m) :
    record m id v = m.map (fun kv => if kv.1 = id then (kv.1, v) else kv) := by
  rw [record, if_pos ((any_key_iff m id).2 h)]

theorem record_of_not_mem {m : AnswerMap} {id : String} (v : String) (h : id ∉ answerKeys m) :
    record m id v = m ++ [(id, v)] := by
  rw [record, if_neg (fun hc => h ((any_key_iff m id).1 hc))]

theorem answerKeys_record (m : AnswerMap) (id v : String) :
    answerKeys (record m id v) =
      if id ∈ answerKeys m then answerKeys m else answerKeys m ++ [id] := by
  by_cases h : id ∈ answerKeys m
  · rw [if_pos h, record_of_mem v h, answerKeys, answerKeys, List.map_map]
    apply List.map_congr_left
    intro kv _
    by_cases hk : kv.1 = id
    · simp [Function.comp, if_pos hk, hk]
    · simp [Function.comp, if_neg hk]
  · rw [if_neg h, record_of_not_mem v h]
    simp [answerKeys]

theorem length_record (m : AnswerMap) (id v : String) :
    (record m id v).length = if id ∈ answerKeys m then m.length else m.length + 1 := by
  by_cases h : id ∈ answerKeys m
  · rw [if_pos h, record_of_mem v h, List.length_map]
  · rw [if_neg h, record_of_not_mem v h, List.length_append, List.length_cons, List.length_nil]

theorem mem_answerKeys_record (m : AnswerMap) (id v x : String) :
    x ∈ answerKeys (record m id v) ↔ x ∈ answerKeys m ∨ x = id := by
  rw [answerKeys_record]
  by_cases h : id ∈ answerKeys m
  · rw [if_pos h]
    constructor
    · exact Or.inl
    · rintro (hx | rfl)
      · exact hx
      · exact h
  · rw [if_neg h]
    simp

theorem nodup_record (m : AnswerMap) (id v : String) (h : (answerKeys m).Nodup) :
    (answerKeys (record m id v)).Nodup := by
  rw [answerKeys_record]
  by_cases hm : id ∈ answerKeys m
  · rwa [if_pos hm]
  · rw [if_neg hm]
    simp [List.nodup_append, h, hm]

theorem record_record (m : AnswerMap) (id v w : String) :
    record (record m id w) id v = record m id v := by
  have hmem : id ∈ answerKeys (record m id w) :=
    (mem_answerKeys_record m id w id).2 (Or.inr rfl)
  by_cases h : id ∈ answerKeys m
  · rw [record_of_mem v hmem, record_of_mem w h, record_of_mem v h, List.map_map]
    apply List.map_congr_left
    intro kv _
    by_cases hk : kv.1 = id
    · simp [Function.comp, if_pos hk, hk]
    · simp [Function.comp, if_neg hk]
  · rw [record_of_mem v hmem, record_of_not_mem w h, record_of_not_mem v h, List.map_append]
    refine congrArg₂ (· ++ ·) ?_ (by simp)
    conv_rhs => rw [← List.map_id m]
    apply List.map_congr_left
    intro kv hkv
    have hk : kv.1 ≠ id := by
      intro hke
      exact h (by rw [answerKeys, List.mem_map]; exact ⟨kv, hkv, hke⟩)
    simp [if_neg hk]

theorem lookup_eq_none_of_not_mem : ∀ {m : AnswerMap} {id : String},
    id ∉ answerKeys m → m.lookup id = none := by
  intro m
  induction m with
  | nil => intro id _; rfl
  | cons kv rest ih =>
    intro id h
    have hk : (id == kv.1) = false := by
      have hne : id ≠ kv.1 := fun hke =>
        h (by rw [answerKeys, List.mem_map]; exact ⟨kv, List.mem_cons_self kv rest, hke.symm⟩)
      simpa using hne
    have hrest : id ∉ answerKeys rest := by
      intro hm
      apply h
      rw [answerKeys, List.mem_map] at hm ⊢
      obtain ⟨kv2, h2, h3⟩ := hm
      exact ⟨kv2, List.mem_cons_of_mem kv h2, h3⟩
    rcases kv with ⟨k, b⟩
    rw [lookup_cons, if_neg (by simp [hk])]
    exact ih hrest

theorem lookup_record_self (m : AnswerMap) (id v : String) :
    (record m id v).lookup id = some v := by
  by_cases h : id ∈ answerKeys m
  · rw [record_of_mem v h]
    induction m with
    | nil => simp [answerKeys] at h
    | cons kv rest ih =>
      rcases kv with ⟨k, b⟩
      by_cases hk : k = id
      · rw [List.map_cons]
        rw [show (if (k, b).1 = id then ((k, b).1, v) else (k, b)) = (k, v) from by
          rw [if_pos hk]]
        rw [lookup_cons, if_pos (by simp [hk])]
      · have hrest : id ∈ answerKeys rest := by
          rw [answerKeys, List.mem_map] at h
          obtain ⟨kv2, h2, h3⟩ := h
          rcases List.mem_cons.1 h2 with h2 | h2
          · exact absurd (by rw [h2] at h3; simpa using h3) hk
          · rw [answerKeys, List.mem_map]; exact ⟨kv2, h2, h3⟩
        rw [List.map_cons]
        rw [show (if (k, b).1 = id then ((k, b).1, v) else (k, b)) = (k, b) from by
          rw [if_neg hk]]
        rw [lookup_cons, if_neg (by simp [Ne.symm hk])]
        exact ih hrest
  · rw [record_of_not_mem v h]
    induction m with
    | nil => simp [List.lookup]
    | cons kv rest ih =>
      rcases kv with ⟨k, b⟩
      have hk : id ≠ k := fun hke =>
        h (by rw [answerKeys, List.mem_map]; exact ⟨(k, b), List.mem_cons_self _ rest, hke.symm⟩)
      have hrest : id ∉ answerKeys rest := by
        intro hm
        apply h
        rw [answerKeys, List.mem_map] at hm ⊢
        obtain ⟨kv2, h2, h3⟩ := hm
        exact ⟨kv2, List.mem_cons_of_mem _ h2, h3⟩
      rw [List.cons_append, lookup_cons, if_neg (by simp [hk])]
      exact ih hrest

theorem lookup_record_other (m : AnswerMap) (id v x : String) (hx : x ≠ id) :
    (record m id v).lookup x = m.lookup x := by
  by_cases h : id ∈ answerKeys m
  · rw [record_of_mem v h]
    clear h
    induction m with
    | nil => rfl
    | cons kv rest ih =>
      rcases kv with ⟨k, b⟩
      by_cases hk : k = id
      · rw [List.map_cons]
        rw [show (if (k, b).1 = id then ((k, b).1, v) else (k, b)) = (k, v) from by
          rw [if_pos hk]]
        rw [lookup_cons, lookup_cons, if_neg (by simp [hk, hx]), if_neg (by simp [hk, hx])]
        exact ih
      · rw [List.map_cons]
        rw [show (if (k, b).1 = id then ((k, b).1, v) else (k, b)) = (k, b) from by
          rw [if_neg hk]]
        rw [lookup_cons, lookup_cons]
        by_cases hxk : x = k
        · rw [if_pos (by simp [hxk]), if_pos (by simp [hxk])]
        · rw [if_neg (by simp [hxk]), if_neg (by simp [hxk])]
          exact ih
  · rw [record_of_not_mem v h]
    induction m with
    | nil =>
      rw [List.nil_append, lookup_cons, if_neg (by simp [hx])]
    | cons kv rest ih =>
      rcases kv with ⟨k, b⟩
      have hrest : id ∉ answerKeys rest := by
        intro hm
        apply h
        rw [answerKeys, List.mem_map] at hm ⊢
        obtain ⟨kv2, h2, h3⟩ := hm
        exact ⟨kv2, List.mem_cons_of_mem _ h2, h3⟩
      rw [List.cons_append, lookup_cons, lookup_cons]
      by_cases hxk : x = k
      · rw [if_pos (by simp [hxk]), if_pos (by simp [hxk])]
      · rw [if_neg (by simp [hxk]), if_neg (by simp [hxk])]
        exact ih hrest


theorem toFinset_answerKeys_record (m : AnswerMap) (id v : String) :
    (answerKeys (record m id v)).toFinset = insert id (answerKeys m).toFinset := by
  rw [answerKeys_record]
  by_cases h : id ∈ answerKeys m
  · rw [if_pos h]
    exact (Finset.insert_eq_self.2 (List.mem_toFinset.2 h)).symm
  · rw [if_neg h]
    ext x
    simp [or_comm]

theorem foldl_record_invariant : ∀ (ops : List (String × String)) (m : AnswerMap),
    (answerKeys m).Nodup →
    (answerKeys (ops.foldl (fun acc op => record acc op.1 op.2) m)).Nodup ∧
    (ops.foldl (fun acc op => record acc op.1 op.2) m).length =
      ((answerKeys m).toFinset ∪ (ops.map Prod.fst).toFinset).card := by
  intro ops
  induction ops with
  | nil =>
    intro m h
    refine ⟨h, ?_⟩
    have hlen : (answerKeys m).length = m.length := List.length_map m Prod.fst
    rw [List.map_nil, List.toFinset_nil, Finset.union_empty,
      List.toFinset_card_of_nodup h, hlen, List.foldl_nil]
  | cons op ops ih =>
    intro m h
    rw [List.foldl_cons]
    obtain ⟨h1, h2⟩ := ih (record m op.1 op.2) (nodup_record m op.1 op.2 h)
    refine ⟨h1, ?_⟩
    rw [h2, toFinset_answerKeys_record]
    refine congrArg Finset.card ?_
    ext x
    simp only [Finset.mem_union, Finset.mem_insert, List.map_cons, List.toFinset_cons]
    tauto

/-- C6: recording an answer for a question id that already has an entry
overwrites the prior selection so the map keeps only the latest value (and a
lookup finds it), a map built from recordings never holds two entries for the
same id, and the answered count equals the number of distinct ids recorded. -/
theorem answer_store_properties :
    ∀ (m : AnswerMap) (id v w : String) (ops : List (String × String)),
      record (record m id w) id v = record m id v ∧
      (record m id v).lookup id = some v ∧
      (answerKeys (applyOps ops)).Nodup ∧
      countAnswered (applyOps ops) = (ops.map Prod.fst).toFinset.card := by
  intro m id v w ops
  obtain ⟨h1, h2⟩ := foldl_record_invariant ops [] (by simp [answerKeys])
  refine ⟨record_record m id v w, lookup_record_self m id v, h1, ?_⟩
  rw [countAnswered, applyOps, h2]
  simp [answerKeys]

/-! ## Lemmas about the report builder -/

theorem scoreFrom_length (a : AnswerMap) :
    ∀ (n : Nat) (l : List FlatQ), (scoreFrom a n l).length = l.length := by
  intro n l
  induction l generalizing n with
  | nil => rfl
  | cons f fs ih => simp [scoreFrom, ih]

theorem scoreFrom_getElem? (a : AnswerMap) :
    ∀ (n : Nat) (l : List FlatQ) (i : Nat),
      (scoreFrom a n l)[i]? = (l[i]?).map (fun f => scoreOne a (n + i) f) := by
  intro n l
  induction l generalizing n with
  | nil => intro i; simp [scoreFrom]
  | cons f fs ih =>
    intro i
    match i with
    | 0 => simp [scoreFrom]
    | i + 1 =>
      rw [scoreFrom]
      simp only [List.getElem?_cons_succ, ih (n + 1) i]
      have : n + 1 + i = n + (i + 1) := by omega
      rw [this]

theorem scoreFrom_map_domain (a : AnswerMap) :
    ∀ (n : Nat) (l : List FlatQ),
      (scoreFrom a n l).map PerAnswer.domain = l.map FlatQ.domain := by
  intro n l
  induction l generalizing n with
  | nil => rfl
  | cons f fs ih => simp [scoreFrom, scoreOne, ih]

theorem foldl_stepTotals_totalQuestions (per : List PerAnswer) :
    ∀ acc : Totals, (per.foldl stepTotals acc).totalQuestions = acc.totalQuestions := by
  induction per with
  | nil => intro acc; rfl
  | cons r per ih =>
    intro acc
    rw [List.foldl_cons, ih]
    rcases hr : r.isCorrect
    · simp [stepTotals, hr]
    · cases hd : r.domain <;> simp [stepTotals, hr, bumpDomain, hd]

theorem foldl_stepTotals_overall_le (per : List PerAnswer) :
    ∀ acc : Totals, (per.foldl stepTotals acc).overall ≤ acc.overall + per.length := by
  induction per with
  | nil => intro acc; simp
  | cons r per ih =>
    intro acc
    rw [List.foldl_cons]
    refine le_trans (ih _) ?_
    have hstep : (stepTotals acc r).overall ≤ acc.overall + 1 := by
      rcases hr : r.isCorrect
      · simp [stepTotals, hr]
      · cases hd : r.domain <;> simp [stepTotals, hr, bumpDomain, hd]
    simp only [List.length_cons]
    omega

theorem foldl_stepTotals_sum (per : List PerAnswer) :
    ∀ acc : Totals, acc.overall = acc.aptitude + acc.reasoning + acc.coding →
      (per.foldl stepTotals acc).overall =
        (per.foldl stepTotals acc).aptitude + (per.foldl stepTotals acc).reasoning +
          (per.foldl stepTotals acc).coding := by
  induction per with
  | nil => intro acc h; exact h
  | cons r per ih =>
    intro acc h
    rw [List.foldl_cons]
    apply ih
    rcases hr : r.isCorrect
    · simpa [stepTotals, hr] using h
    · cases hd : r.domain <;> simp [stepTotals, hr, bumpDomain, hd] <;> omega

theorem buildReport_answers (flat : List FlatQ) (m : AnswerMap) (p : Option Parsed) :
    (buildReport flat m p).answers = scoreFrom m 0 flat := rfl

theorem buildReport_totals (flat : List FlatQ) (m : AnswerMap) (p : Option Parsed) :
    (buildReport flat m p).totals =
      (scoreFrom m 0 flat).foldl stepTotals
        { overall := 0, aptitude := 0, reasoning := 0, coding := 0,
          totalQuestions := (scoreFrom m 0 flat).length } := rfl

theorem buildReport_accuracy (flat : List FlatQ) (m : AnswerMap) (p : Option Parsed) :
    (buildReport flat m p).behavior.accuracy =
      (if (buildReport flat m p).totals.totalQuestions ≠ 0 then
        jsRound (((buildReport flat m p).totals.overall : ℚ) /
          ((buildReport flat m p).totals.totalQuestions : ℚ) * 100)
      else 0) := rfl

theorem buildReport_consistency (flat : List FlatQ) (m : AnswerMap) (p : Option Parsed) :
    (buildReport flat m p).behavior.consistency =
      consistencyOf ((scoreFrom m 0 flat).map (fun q => if q.isCorrect then (1 : ℚ) else 0)) :=
  rfl

theorem buildReport_totalQuestions (flat : List FlatQ) (m : AnswerMap) (p : Option Parsed) :
    (buildReport flat m p).totals.totalQuestions = flat.length := by
  rw [buildReport_totals, foldl_stepTotals_totalQuestions, scoreFrom_length]

theorem buildReport_overall_le (flat : List FlatQ) (m : AnswerMap) (p : Option Parsed) :
    (buildReport flat m p).totals.overall ≤ (buildReport flat m p).totals.totalQuestions := by
  rw [buildReport_totals, foldl_stepTotals_totalQuestions]
  exact le_trans (foldl_stepTotals_overall_le _ _) (by simp [scoreFrom_length])

/-- C9: every report satisfies `totals.overall = totals.aptitude +
totals.reasoning + totals.coding`, `totals.totalQuestions` equals the length
of the per-question results list, which equals the length of the input
FlatQuestion sequence (the results follow the input's order), and
`0 ≤ totals.overall ≤ totals.totalQuestions` (the lower bound holds since the
counts are naturals). -/
theorem report_totals_invariants (flat : List FlatQ) (m : AnswerMap) (p : Option Parsed) :
    (buildReport flat m p).totals.overall =
        (buildReport flat m p).totals.aptitude + (buildReport flat m p).totals.reasoning +
          (buildReport flat m p).totals.coding ∧
      (buildReport flat m p).totals.totalQuestions = (buildReport flat m p).answers.length ∧
      (buildReport flat m p).answers.length = flat.length ∧
      (buildReport flat m p).answers.map PerAnswer.domain = flat.map FlatQ.domain ∧
      (buildReport flat m p).totals.overall ≤ (buildReport flat m p).totals.totalQuestions := by
  refine ⟨?_, ?_, ?_, ?_, buildReport_overall_le flat m p⟩
  · rw [buildReport_totals]
    exact foldl_stepTotals_sum _ _ rfl
  · rw [buildReport_totalQuestions, buildReport_answers, scoreFrom_length]
  · rw [buildReport_answers, scoreFrom_length]
  · rw [buildReport_answers, scoreFrom_map_domain]

/-- C1: the accuracy computed by the report builder equals the spec's
`round(100 * overall correct count / total question count)`, is always in
[0, 100], and equals 0 when the total question count is 0. -/
theorem report_accuracy (flat : List FlatQ) (m : AnswerMap) (p : Option Parsed) :
    (buildReport flat m p).behavior.accuracy =
        specAccuracy (buildReport flat m p).totals.overall
          (buildReport flat m p).totals.totalQuestions ∧
      0 ≤ (buildReport flat m p).behavior.accuracy ∧
      (buildReport flat m p).behavior.accuracy ≤ 100 ∧
      ((buildReport flat m p).totals.totalQuestions = 0 →
        (buildReport flat m p).behavior.accuracy = 0) := by
  have hle := buildReport_overall_le flat m p
  rw [buildReport_accuracy]
  set c := (buildReport flat m p).totals.overall with hc
  set t := (buildReport flat m p).totals.totalQuestions with ht
  by_cases h0 : t = 0
  · rw [specAccuracy, if_pos h0, if_neg (by simpa using h0)]
    exact ⟨rfl, le_refl 0, by norm_num, fun _ => rfl⟩
  · rw [specAccuracy, if_neg h0, if_pos h0]
    have htq : (0 : ℚ) < (t : ℚ) := by
      exact_mod_cast Nat.pos_of_ne_zero h0
    have hdiv : (c : ℚ) / (t : ℚ) ≤ 1 := by
      rw [div_le_one htq]
      exact_mod_cast hle
    have hdiv0 : (0 : ℚ) ≤ (c : ℚ) / (t : ℚ) := by positivity
    refine ⟨?_, ?_, ?_, fun hz => absurd hz h0⟩
    · rw [jsRound]
      congr 1
      ring
    · rw [jsRound, Int.le_floor]
      push_cast
      linarith
    · rw [jsRound]
      have hlt : ((c : ℚ) / (t : ℚ) * 100 + 1 / 2) < ((101 : ℤ) : ℚ) := by
        push_cast
        linarith
      have h2 : Int.floor ((c : ℚ) / (t : ℚ) * 100 + 1 / 2) < 101 := Int.floor_lt.2 hlt
      omega

/-- Witness for C1: the empty test produces accuracy 0 with total 0. -/
theorem report_accuracy_witness :
    (buildReport [] [] none).totals.totalQuestions = 0 ∧
      (buildReport [] [] none).behavior.accuracy = 0 :=
  ⟨rfl, (report_accuracy [] [] none).2.2.2 rfl⟩

theorem foldl_add_eq (l : List ℚ) : ∀ a : ℚ, l.foldl (· + ·) a = a + l.sum := by
  induction l with
  | nil => intro a; simp
  | cons x xs ih =>
    intro a
    rw [List.foldl_cons, ih, List.sum_cons]
    ring

theorem foldl_sqdev_eq (l : List ℚ) (mv : ℚ) :
    ∀ a : ℚ, l.foldl (fun x b => x + (b - mv) * (b - mv)) a =
      a + (l.map (fun b => (b - mv) ^ 2)).sum := by
  induction l with
  | nil => intro a; simp
  | cons x xs ih =>
    intro a
    rw [List.foldl_cons, ih, List.map_cons, List.sum_cons]
    ring

theorem meanJS_eq (l : List ℚ) : meanJS l = meanSpec l := by
  rw [meanJS, meanSpec, foldl_add_eq, zero_add]
  rcases l with _ | ⟨x, xs⟩
  · simp [jsDenom]
  · rw [jsDenom, if_neg (by simp)]

theorem windowMeans_eq (l : List ℚ) : windowMeans l = (windows5 l).map meanSpec := by
  have key : ∀ (n : Nat) (l : List ℚ), l.length ≤ n →
      windowMeans l = (windows5 l).map meanSpec := by
    intro n
    induction n with
    | zero =>
      intro l hl
      rw [List.length_eq_zero.1 (Nat.le_zero.1 hl)]
      rfl
    | succ n ih =>
      intro l hl
      match l with
      | [] => rfl
      | [a] => rw [show windowMeans [a] = [meanJS [a]] from rfl, meanJS_eq]; rfl
      | [a, b] => rw [show windowMeans [a, b] = [meanJS [a, b]] from rfl, meanJS_eq]; rfl
      | [a, b, c] => rw [show windowMeans [a, b, c] = [meanJS [a, b, c]] from rfl, meanJS_eq]; rfl
      | [a, b, c, d] =>
        rw [show windowMeans [a, b, c, d] = [meanJS [a, b, c, d]] from rfl, meanJS_eq]; rfl
      | a :: b :: c :: d :: e :: rest =>
        rw [show windowMeans (a :: b :: c :: d :: e :: rest) =
            meanJS [a, b, c, d, e] :: windowMeans rest from rfl,
          show windows5 (a :: b :: c :: d :: e :: rest) =
            [a, b, c, d, e] :: windows5 rest from rfl,
          List.map_cons, meanJS_eq, ih rest (by simp at hl; omega)]
  exact key l.length l le_rfl

theorem windowVariance_eq (l : List ℚ) : windowVariance l = specWindowVariance l := by
  rw [specWindowVariance, ← windowMeans_eq]
  show ((windowMeans l).foldl
      (fun a b => a + (b - ((windowMeans l).foldl (· + ·) 0 / jsDenom (windowMeans l).length)) *
        (b - ((windowMeans l).foldl (· + ·) 0 / jsDenom (windowMeans l).length))) 0) /
      jsDenom (windowMeans l).length = varianceSpec (windowMeans l)
  have hmean : (windowMeans l).foldl (· + ·) 0 / jsDenom (windowMeans l).length =
      meanSpec (windowMeans l) := meanJS_eq (windowMeans l)
  rw [hmean, varianceSpec, foldl_sqdev_eq, zero_add]
  rcases h : windowMeans l with _ | ⟨x, xs⟩
  · simp [jsDenom]
  · rw [jsDenom, if_neg (by simp)]

/-- C3: the consistency label is computed by partitioning the ordered 0/1
correctness sequence into windows of 5, taking the variance of the window
means, and comparing with strict less-than: variance < 0.05 gives "Highly
consistent", variance < 0.12 gives "Moderately consistent", otherwise
"Inconsistent"; a correctness sequence whose window variance is exactly
0.05 = 1/20 (realized by a concrete 20-question report) is labeled
"Moderately consistent". -/
theorem consistency_label_spec :
    (∀ seq : List ℚ, windowVariance seq = specWindowVariance seq) ∧
    (∀ (flat : List FlatQ) (m : AnswerMap) (p : Option Parsed),
      (buildReport flat m p).behavior.consistency =
        (if specWindowVariance ((buildReport flat m p).answers.map
            (fun r => if r.isCorrect then (1 : ℚ) else 0)) < 1 / 20 then "Highly consistent"
         else if specWindowVariance ((buildReport flat m p).answers.map
            (fun r => if r.isCorrect then (1 : ℚ) else 0)) < 3 / 25 then "Moderately consistent"
         else "Inconsistent")) ∧
    specWindowVariance boundarySeq = 1 / 20 ∧
    consistencyOf boundarySeq = "Moderately consistent" ∧
    (buildReport (flatten payload20) answers20 none).answers.map
      (fun r => if r.isCorrect then (1 : ℚ) else 0) = boundarySeq ∧
    (buildReport (flatten payload20) answers20 none).behavior.consistency =
      "Moderately consistent" := by
  have hb : specWindowVariance boundarySeq = 1 / 20 := by
    rw [← windowVariance_eq]
    norm_num [windowVariance, windowMeans, meanJS, jsDenom, boundarySeq]
  have hcons : consistencyOf boundarySeq = "Moderately consistent" := by
    rw [consistencyOf, windowVariance_eq, hb]
    norm_num
  have hseq : (buildReport (flatten payload20) answers20 none).answers.map
      (fun r => if r.isCorrect then (1 : ℚ) else 0) = boundarySeq := by
    decide
  refine ⟨windowVariance_eq, ?_, hb, hcons, hseq, ?_⟩
  · intro flat m p
    rw [buildReport_consistency, consistencyOf, windowVariance_eq, buildReport_answers]
  · rw [buildReport_consistency]
    rw [show (scoreFrom answers20 0 (flatten payload20)).map
        (fun q => if q.isCorrect then (1 : ℚ) else 0) = boundarySeq from hseq]
    exact hcons

/-- Counterexample to C2: for a question whose correct_answer is the empty
string and a recorded answer that is also the empty string, the answer is
present and equals the question's correct_answer, yet the report builder
scores it incorrect (`!!chosen` and `!!correct` are both false on `""`). -/
theorem scoring_empty_equal_counterexample :
    emptyAnswer.lookup emptyCorrectFlat.id = some "" ∧
      emptyCorrectFlat.q.correct_answer = some "" ∧
      (buildReport [emptyCorrectFlat] emptyAnswer none).answers.map PerAnswer.isCorrect =
        [false] := by
  decide

/-- C2 (amended): the report builder marks an answer correct if and only if
an answer is present, it equals the question's correct_answer under exact
case-sensitive string equality with no normalization, and that common value
is non-empty; in particular selecting "Paris " (trailing space) against
correct answer "Paris" is scored incorrect. -/
theorem scoring_exact_match (flat : List FlatQ) (m : AnswerMap) (p : Option Parsed)
    (i : Nat) (f : FlatQ) (r : PerAnswer)
    (hf : flat[i]? = some f)
    (hr : (buildReport flat m p).answers[i]? = some r) :
    (r.isCorrect = true ↔
      (m.lookup f.id = some (f.q.correct_answer.getD "") ∧
        f.q.correct_answer.getD "" ≠ "")) := by
  rw [buildReport_answers, scoreFrom_getElem?, hf, Option.map_some'] at hr
  obtain rfl : scoreOne m (0 + i) f = r := by injection hr
  have hic : (scoreOne m (0 + i) f).isCorrect =
      (truthyOpt (m.lookup f.id) && truthyStr (f.q.correct_answer.getD "") &&
        (m.lookup f.id == some (f.q.correct_answer.getD ""))) := rfl
  rw [hic]
  rcases hch : m.lookup f.id with _ | c
  · simp [truthyOpt]
  · simp only [truthyOpt, truthyStr, Bool.and_eq_true, Bool.not_eq_true', beq_eq_false_iff_ne,
      beq_iff_eq, Option.some.injEq]
    constructor
    · rintro ⟨⟨hc1, hc2⟩, hc3⟩
      exact ⟨hc3, hc2⟩
    · rintro ⟨hc3, hc2⟩
      exact ⟨⟨by rw [hc3]; exact hc2, hc2⟩, hc3⟩

/-- Witness for the amended C2: "Paris " against "Paris" scores incorrect. -/
theorem scoring_exact_match_witness :
    (buildReport [parisFlat] parisAnswer none).answers.map PerAnswer.isCorrect = [false] := by
  have h := scoring_exact_match [parisFlat] parisAnswer none 0 parisFlat
    (scoreOne parisAnswer (0 + 0) parisFlat) rfl rfl
  have hfalse : (scoreOne parisAnswer (0 + 0) parisFlat).isCorrect = false := by
    cases hb : (scoreOne parisAnswer (0 + 0) parisFlat).isCorrect
    · rfl
    · exact absurd (h.mp hb).1 (by decide)
  simpa [buildReport_answers, scoreFrom] using hfalse

/-- C10: for every FlatQuestion whose question has no correct_answer field or
whose correct_answer is the empty string, the report builder (a total
function that never fails) records the result's correct field as the empty
string and scores isCorrect = false, whatever the AnswerMap holds. -/
theorem scoring_missing_correct (flat : List FlatQ) (m : AnswerMap) (p : Option Parsed)
    (i : Nat) (f : FlatQ)
    (hf : flat[i]? = some f)
    (hq : f.q.correct_answer = none ∨ f.q.correct_answer = some "") :
    ∃ r, (buildReport flat m p).answers[i]? = some r ∧ r.correct = "" ∧
      r.isCorrect = false := by
  have hcg : f.q.correct_answer.getD "" = "" := by
    rcases hq with h | h <;> rw [h] <;> rfl
  refine ⟨scoreOne m (0 + i) f, ?_, ?_, ?_⟩
  · rw [buildReport_answers, scoreFrom_getElem?, hf, Option.map_some']
  · exact hcg
  · have hic : (scoreOne m (0 + i) f).isCorrect =
        (truthyOpt (m.lookup f.id) && truthyStr (f.q.correct_answer.getD "") &&
          (m.lookup f.id == some (f.q.correct_answer.getD ""))) := rfl
    rw [hic, hcg]
    simp [truthyStr]

/-- Witness for C10: a question with no correct_answer field, answered with
the empty string, produces correct = "" and isCorrect = false. -/
theorem scoring_missing_correct_witness :
    ∃ r, (buildReport [noCorrectFlat] emptyAnswer none).answers[0]? = some r ∧
      r.correct = "" ∧ r.isCorrect = false :=
  scoring_missing_correct [noCorrectFlat] emptyAnswer none 0 noCorrectFlat rfl (Or.inl rfl)

/-! ## Lemmas about the timer -/

theorem timerTrace_lt : ∀ k : Nat, k < 1800 →
    timerTrace k = { remaining := 1800 - k, intervalActive := true, builds := 0 } := by
  intro k
  induction k with
  | zero => intro _; decide
  | succ k ih =>
    intro hk
    rw [timerTrace, ih (by omega)]
    have h1 : 0 < 1800 - k := by omega
    have h2 : ¬(1800 - k - 1 = 0) := by omega
    simp [timerTick, runTimerEffect, h1, h2]
    omega

theorem timerTrace_expiry :
    timerTrace 1800 = { remaining := 0, intervalActive := false, builds := 1 } := by
  have h : (1800 : Nat) = 1799 + 1 := by norm_num
  rw [h, timerTrace, timerTrace_lt 1799 (by omega)]
  decide

theorem timerTrace_after : ∀ j : Nat, timerTrace (1800 + j) = timerTrace 1800 := by
  intro j
  induction j with
  | zero => rfl
  | succ j ih =>
    have h : 1800 + (j + 1) = (1800 + j) + 1 := by omega
    rw [h, timerTrace, ih, timerTrace_expiry]
    decide

/-- C7: the test timer counts down from 1800 seconds in 1-second decrements
while the test page is mounted, and on reaching zero it triggers report
finalization exactly once — the state is fixed from then on, so no further
tick rebuilds the report. -/
theorem timer_counts_down (k : Nat) (hk : k ≤ 1800) :
    (timerTrace k).remaining = 1800 - k ∧
      (timerTrace k).builds = (if k = 1800 then 1 else 0) ∧
      (∀ j : Nat, timerTrace (1800 + j) = timerTrace 1800) ∧
      (timerTrace 1800).builds = 1 := by
  by_cases h : k = 1800
  · subst h
    refine ⟨?_, ?_, timerTrace_after, ?_⟩
    · rw [timerTrace_expiry]
    · rw [timerTrace_expiry, if_pos (rfl : (1800 : Nat) = 1800)]
    · rw [timerTrace_expiry]
  · have hlt : k < 1800 := by omega
    rw [timerTrace_lt k hlt]
    exact ⟨rfl, by simp [h], timerTrace_after, by rw [timerTrace_expiry]⟩

/-- Witness for C7 at expiry time. -/
theorem timer_counts_down_witness :
    (timerTrace 1800).remaining = 1800 - 1800 ∧ (timerTrace 1800).builds = 1 :=
  ⟨(timer_counts_down 1800 (by norm_num)).1, (timer_counts_down 1800 (by norm_num)).2.2.2⟩

/-! ## Remote-gateway error surfaces -/

/-- Counterexample to C8: on a failed upload the resume service surfaces
"Upload failed: " ++ statusText — a fixed prefix plus the statusText, not the
body text or the statusText verbatim; the report service likewise; and the
parse page substitutes a generic message when the body text is empty. -/
theorem gateway_error_prefix_counterexample :
    uploadResumeErrorMessage "Not Found" = "Upload failed: Not Found" ∧
      "Upload failed: Not Found" ≠ "Not Found" ∧
      generateReportErrorMessage "Not Found" = "Report generation failed: Not Found" ∧
      "Report generation failed: Not Found" ≠ "Not Found" ∧
      handleParseErrorMessage "" = "Parse failed" := by
  decide

/-- C8 (amended): the page-level parse handler surfaces the response body
text verbatim whenever it is non-empty (falling back to "Parse failed" on an
empty body), while the service-module calls surface the statusText behind a
fixed call-specific prefix — never equal to the bare statusText. -/
theorem gateway_error_messages (bodyText statusText : String) :
    (bodyText ≠ "" → handleParseErrorMessage bodyText = bodyText) ∧
      handleParseErrorMessage "" = "Parse failed" ∧
      uploadResumeErrorMessage statusText = "Upload failed: " ++ statusText ∧
      generateReportErrorMessage statusText = "Report generation failed: " ++ statusText ∧
      uploadResumeErrorMessage statusText ≠ statusText ∧
      generateReportErrorMessage statusText ≠ statusText := by
  refine ⟨?_, rfl, rfl, rfl, ?_, ?_⟩
  · intro h
    rw [handleParseErrorMessage, if_pos (by simpa [truthyStr] using h)]
  · intro h
    have hlen := congrArg String.length h
    rw [uploadResumeErrorMessage, String.length_append] at hlen
    have hp : ("Upload failed: ").length = 15 := rfl
    omega
  · intro h
    have hlen := congrArg String.length h
    rw [generateReportErrorMessage, String.length_append] at hlen
    have hp : ("Report generation failed: ").length = 26 := rfl
    omega

/-- Witness for the amended C8 at concrete response texts. -/
theorem gateway_error_messages_witness :
    handleParseErrorMessage "boom" = "boom" ∧
      uploadResumeErrorMessage "Not Found" ≠ "Not Found" :=
  ⟨(gateway_error_messages "boom" "Not Found").1 (by decide),
    (gateway_error_messages "boom" "Not Found").2.2.2.2.1⟩

end InterviewAI
